import Mathlib

/-!
Verification development for the zhihu batch-download pipeline.

The two source files are embedded shallowly:
* `batch_download.py` — identifier extraction (`get_article_id`), the
  idempotency check (`article_exists`, a recursive walk of the output
  directory), the per-URL worker (`process_single_url`), the batch
  aggregator (`process_urls`) and the top-level driver (`mainRun`).
* `pages_to_urls.py` — URL normalization (`normalize`) and the
  per-category extraction/dedup loop (`extract_urls_from_soup`,
  `processCategory`).

Python strings are modelled as Lean `String`.  Python's string
primitives are given structurally recursive models so that every
definition evaluates by kernel reduction: `sub in s` is `hasSubstr`,
`s.split(sep)` is `pySplit` (same semantics as Python for the
non-empty separators used here), `s.strip()` is `pyStrip`,
`s.startswith(p)` is `pyStartsWith`.  The external fetch unit
(`ZhihuParser.judge_type`, which either completes or raises) is an
abstract parameter of type `String → Except String Unit`.  The file
system seen by `os.walk` is an explicit tree of named directories and
files.
-/

namespace Zhihu

/-- Python's `sub in s` substring containment test, as a `Bool`. -/
def hasSubstr (s sub : String) : Bool :=
  decide (sub.toList <:+: s.toList)

/-- `lst₁` begins with `lst₂` (helper for `pyStartsWith` / `pySplit`). -/
def listStartsWith : List Char → List Char → Bool
  | _, [] => true
  | [], _ :: _ => false
  | a :: as, b :: bs => a == b && listStartsWith as bs

/-- Python's `s.startswith(pat)`. -/
def pyStartsWith (s pat : String) : Bool :=
  listStartsWith s.toList pat.toList

/-- The whitespace characters stripped by Python's `str.strip()`
(restricted to the ASCII ones, which is all the inputs here contain). -/
def isSpace (c : Char) : Bool :=
  c == ' ' || c == '\t' || c == '\n' || c == '\r' || c == '\x0b' || c == '\x0c'

/-- Python's `s.strip()`: drop whitespace from both ends. -/
def pyStrip (s : String) : String :=
  String.mk (((s.toList.dropWhile isSpace).reverse.dropWhile isSpace).reverse)

/-- Worker for `pySplit`.  `fuel` bounds the recursion (it starts at the
length of the text, and every step consumes at least one character, so
for a non-empty separator it never runs out).  `acc` holds the current
chunk reversed. -/
def splitAux (sep : List Char) : Nat → List Char → List Char → List (List Char)
  | _, [], acc => [acc.reverse]
  | 0, s, acc => [acc.reverse ++ s]
  | fuel + 1, c :: rest, acc =>
      if listStartsWith (c :: rest) sep then
        acc.reverse :: splitAux sep fuel ((c :: rest).drop sep.length) []
      else
        splitAux sep fuel rest (c :: acc)

/-- Python's `s.split(sep)` for a non-empty separator `sep`: the chunks
of `s` between leftmost non-overlapping occurrences of `sep`, empty
chunks included.  (Python raises on an empty separator; no caller uses
one, and we return `[s]` in that case.) -/
def pySplit (s sep : String) : List String :=
  if sep = "" then [s]
  else (splitAux sep.toList s.toList.length s.toList []).map String.mk

/-- `pages_to_urls.normalize`: strip whitespace, and turn a
protocol-relative `//…` URL into `https://…`. -/
def normalize (raw : String) : String :=
  let r := pyStrip raw
  if pyStartsWith r "//" then "https:" ++ r else r

/-- `batch_download.get_article_id`: extract the article identifier from
a URL by matching one of four shapes (article, question-answer, short
video, column).  Python's `lst[-1]` / `lst[0]` on the (never empty)
result of `split` are `getLastD ""` / `headD ""`. -/
def get_article_id (url : String) : Option String :=
  if hasSubstr url "zhuanlan.zhihu.com/p/" then
    some (((pySplit ((pySplit url "zhuanlan.zhihu.com/p/").getLastD "") "/").headD ""))
  else if hasSubstr url "question" && hasSubstr url "answer" then
    some (((pySplit ((pySplit url "answer/").getLastD "") "/").headD ""))
  else if hasSubstr url "zvideo" then
    some (((pySplit ((pySplit url "zvideo/").getLastD "") "/").headD ""))
  else if hasSubstr url "column" then
    some (((pySplit ((pySplit url "column/").getLastD "") "/").headD ""))
  else none

example : pySplit "a,b,,c" "," = ["a", "b", "", "c"] := by decide
example : pySplit "ab" "b" = ["a", ""] := by decide
example : pySplit "abc" "x" = ["abc"] := by decide
example : normalize "//www.zhihu.com/p/1" = "https://www.zhihu.com/p/1" := by decide
example : normalize "  https://a.b  " = "https://a.b" := by decide
example : get_article_id "https://zhuanlan.zhihu.com/p/12345" = some "12345" := by decide
example : get_article_id "https://www.zhihu.com/question/11/answer/67890" = some "67890" := by decide
example : get_article_id "https://example.org/x" = none := by decide
example : get_article_id "https://www.zhihu.com/zvideo/" = some "" := by decide

/-- A file-system entry: a named directory with its entries, or a named
file.  `os.walk` is modelled on this tree. -/
inductive Entry where
  | dir (name : String) (children : List Entry)
  | file (name : String)

/-- The subdirectory names among `es` (the `dirs` component of one
`os.walk` step). -/
def dirNames : List Entry → List String
  | [] => []
  | .dir n _ :: rest => n :: dirNames rest
  | .file _ :: rest => dirNames rest

/-- The file names among `es` (the `files` component of one `os.walk`
step). -/
def fileNames : List Entry → List String
  | [] => []
  | .dir _ _ :: rest => fileNames rest
  | .file n :: rest => n :: fileNames rest

mutual
/-- `os.walk(path)` for the directory at `path` whose entries are `es`:
the top-down list of `(root, dirs, files)` triples, `root` being the
joined path string. -/
def walk (path : String) (es : List Entry) : List (String × List String × List String) :=
  (path, dirNames es, fileNames es) :: walkChildren path es

/-- Walk each subdirectory of `es` in order, extending the path. -/
def walkChildren (path : String) : List Entry → List (String × List String × List String)
  | [] => []
  | .file _ :: rest => walkChildren path rest
  | .dir n cs :: rest => walk (path ++ "/" ++ n) cs ++ walkChildren path rest
end

/-- `batch_download.article_exists`: walk `output_dir` (a directory at
path `output_dir` with entries `es`) and return `True` as soon as some
walk root string contains `article_id` as a substring (`if article_id
in root`).  File names are never consulted by the loop. -/
def article_exists (article_id : String) (output_dir : String) (es : List Entry) : Bool :=
  (walk output_dir es).any fun step => hasSubstr step.1 article_id

/-- What the spec attributes to the idempotency check: some directory or
file *name* under the output root (recursively) contains the identifier
as a substring.  The names collected recursively, for comparison with
`article_exists`. -/
def allNames : List Entry → List String
  | [] => []
  | .file n :: rest => n :: allNames rest
  | .dir n cs :: rest => n :: (allNames cs ++ allNames rest)

mutual
/-- The directory path strings of the tree rooted at `path`, defined
independently of `walk`: the root path itself and, for every chain of
nested subdirectories, the root path joined with that chain.  File
entries contribute nothing. -/
def dirPathsOf (path : String) (es : List Entry) : List String :=
  path :: dirPathsChildren path es

/-- The directory path strings contributed by the subdirectories among
`es`. -/
def dirPathsChildren (path : String) : List Entry → List String
  | [] => []
  | .file _ :: rest => dirPathsChildren path rest
  | .dir n cs :: rest => dirPathsOf (path ++ "/" ++ n) cs ++ dirPathsChildren path rest
end

/-- The result triple of `process_single_url`: `(url, success, error)`,
with `error = none` for Python's `None`. -/
abbrev UrlResult := String × Bool × Option String

set_option linter.unusedVariables false in
/-- `batch_download.process_single_url`, with the external fetch unit
(`ZhihuParser(...).judge_type(url)`) abstracted as `fetch : String →
Except String Unit` — `.error e` models `judge_type` raising an
exception whose message is `e`, which the `try/except` converts into
the failure triple.  `cookies` is passed to the parser and does not
otherwise affect control flow.  Python's `if not article_id` is true
for both `None` and the empty string. -/
def process_single_url (fetch : String → Except String Unit) (url : String)
    (cookies : String) (output_dir : String) (es : List Entry) : UrlResult :=
  match get_article_id url with
  | none => (url, false, some "Invalid URL format")
  | some article_id =>
    if article_id = "" then (url, false, some "Invalid URL format")
    else if article_exists article_id output_dir es then
      (url, true, some "Article already exists")
    else
      match fetch url with
      | .ok _ => (url, true, none)
      | .error e => (url, false, some e)

/-- The running totals of `process_urls`: success count, failure count,
skipped count, and the accumulated `(url, error)` failure list. -/
abbrev Totals := Nat × Nat × Nat × List (String × Option String)

/-- One iteration of the result loop of `process_urls` (lines 101–113):
classify a worker result and update the counters and the failure
list. -/
def tallyStep (acc : Totals) (r : UrlResult) : Totals :=
  let (success_count, failure_count, skipped_count, failed_urls) := acc
  let (url, success, error) := r
  if success then
    if error = some "Article already exists" then
      (success_count, failure_count, skipped_count + 1, failed_urls)
    else
      (success_count + 1, failure_count, skipped_count, failed_urls)
  else
    (success_count, failure_count + 1, skipped_count, failed_urls ++ [(url, error)])

/-- `batch_download.process_urls` on the stream of worker results.
`imap_unordered` delivers one result per URL in an arbitrary order, so
the function is stated over the result list itself; the connection to
the input URL list (the results are the worker outputs on some
permutation of the input) is a hypothesis of the theorems. -/
def process_urls (results : List UrlResult) : Totals :=
  results.foldl tallyStep (0, 0, 0, [])

/-- `EXTRACTED_DIR = BASE_DIR / "markdown"`. -/
def EXTRACTED_DIR : String := "zhihu/markdown"

/-- `batch_download.read_cookies_from_file`.  `content` is the file
system's answer for the cookies file: `none` when the file does not
exist, `some s` for its text.  `sys.exit(1)` is `Except.error 1`. -/
def read_cookies_from_file (content : Option String) : Except Nat String :=
  match content with
  | none => Except.error 1
  | some s =>
    let cookies := pyStrip s
    if cookies = "" then Except.error 1 else Except.ok cookies

/-- One URL-list file, as `main` sees it: its stem (name without the
`.txt` extension) and the stripped non-empty lines read from it. -/
structure UrlFile where
  stem : String
  urls : List String

/-- `batch_download.process_url_file`: derive the per-file output
directory from the file stem and run `process_urls` on the worker
results for its URLs.  `fs` gives the entries of each directory path.
Results are tallied in input order here; `process_urls` itself is
order-insensitive in the counts (see the batch theorems). -/
def process_url_file (fetch : String → Except String Unit)
    (fs : String → List Entry) (f : UrlFile) (cookies : String) : Totals :=
  let output_dir := EXTRACTED_DIR ++ "/" ++ f.stem
  process_urls (f.urls.map fun url =>
    process_single_url fetch url cookies output_dir (fs output_dir))

/-- `batch_download.main`: read the cookies file (exiting with status 1
when it is absent or blank), exit with status 1 when no URL-list files
were found, and otherwise process every file, accumulating the grand
totals.  `Except.error code` models `sys.exit(code)` before any item
is processed; `Except.ok` carries the overall (success, failure,
skipped) totals. -/
def mainRun (fetch : String → Except String Unit) (fs : String → List Entry)
    (cookiesContent : Option String) (url_files : List UrlFile) :
    Except Nat (Nat × Nat × Nat) := do
  let cookies ← read_cookies_from_file cookiesContent
  if url_files.isEmpty then
    Except.error 1
  else
    Except.ok (url_files.foldl
      (fun acc f =>
        let (ts, tf, tk) := acc
        let (s, fa, k, _) := process_url_file fetch fs f cookies
        (ts + s, tf + fa, tk + k))
      (0, 0, 0))

/-- One iteration of the extraction loop of
`pages_to_urls.extract_urls_from_soup`, applied to the raw attribute
string of one matched tag (`content` of a qualifying `meta`, or `href`
of a qualifying anchor): strip it, skip it when empty, normalize it,
and append it unless already seen.  State is `(out, seen)`. -/
def extract_step (acc : List String × List String) (raw : String) :
    List String × List String :=
  let (out, seen) := acc
  let r := pyStrip raw
  if r = "" then acc
  else
    let url := normalize r
    if url ∈ seen then acc else (out ++ [url], url :: seen)

/-- `pages_to_urls.extract_urls_from_soup` on one document, abstracted
to the list of raw candidate strings its tag scan yields in document
order.  Returns the per-document output list together with the updated
shared seen set (the Python code mutates `seen` in place). -/
def extract_urls_from_soup (cands : List String) (seen : List String) :
    List String × List String :=
  cands.foldl extract_step ([], seen)

/-- One iteration of the per-category loop of `pages_to_urls.main`: run
the extractor on the next document (in sorted file-name order) with the
shared seen set and append its output to `merged` (`merged += result`). -/
def catStep (acc : List String × List String) (doc : List String) :
    List String × List String :=
  let (merged, seen) := acc
  let (result, seen') := extract_urls_from_soup doc seen
  (merged ++ result, seen')

/-- The per-category loop of `pages_to_urls.main`: documents (already in
sorted file-name order) are processed with one shared seen set, their
outputs concatenated into `merged`, which is what gets written to
`urls/<category>.txt`. -/
def processCategory (docs : List (List String)) : List String :=
  (docs.foldl catStep ([], [])).1

/-- Spec-side first-occurrence deduplication, with an accumulator of
already-seen strings: keep each string the first time it appears, drop
later repeats. -/
def dedupFirstAux (seen : List String) : List String → List String
  | [] => []
  | x :: xs =>
    if x ∈ seen then dedupFirstAux seen xs
    else x :: dedupFirstAux (x :: seen) xs

/-- Spec-side description of the emitted category list: every element at
the position of its first occurrence, later duplicates dropped. -/
def dedupFirst (l : List String) : List String :=
  dedupFirstAux [] l

/-- The seen set after feeding `l` through the dedup loop. -/
def seenAfter (seen : List String) : List String → List String
  | [] => seen
  | x :: xs =>
    if x ∈ seen then seenAfter seen xs
    else seenAfter (x :: seen) xs

/-- The URL a raw candidate string contributes, if any: `none` when its
stripped form is empty (the `if raw:` guard), otherwise the normalized
URL. -/
def candUrl (raw : String) : Option String :=
  if pyStrip raw = "" then none else some (normalize (pyStrip raw))

/-! ## Lemmas about the directory walk -/

lemma walkChildren_map_fst_aux :
    ∀ (n : Nat) (path : String) (es : List Entry), sizeOf es ≤ n →
      (walkChildren path es).map Prod.fst = dirPathsChildren path es := by
  intro n
  induction n with
  | zero =>
    intro path es h
    cases es with
    | nil => simp [walkChildren, dirPathsChildren]
    | cons e rest => exfalso; cases e <;> simp at h
  | succ n ih =>
    intro path es h
    match es with
    | [] => simp [walkChildren, dirPathsChildren]
    | .file m :: rest =>
      have hrest : sizeOf rest ≤ n := by simp at h; omega
      simp [walkChildren, dirPathsChildren, ih path rest hrest]
    | .dir m cs :: rest =>
      have hcs : sizeOf cs ≤ n := by simp at h; omega
      have hrest : sizeOf rest ≤ n := by simp at h; omega
      simp [walkChildren, walk, dirPathsChildren, dirPathsOf,
        ih path rest hrest, ih (path ++ "/" ++ m) cs hcs]

lemma walk_map_fst (path : String) (es : List Entry) :
    (walk path es).map Prod.fst = dirPathsOf path es := by
  simp [walk, dirPathsOf, walkChildren_map_fst_aux (sizeOf es) path es le_rfl]

/-- C1 — counterexample.  The spec says `article_exists` is true iff
some directory or file *name* under the output root contains the
identifier; but the loop only inspects the walk's `root` path strings
and never the file names.  A tree whose only match is a file name:
the spec-side predicate is true while `article_exists` returns
false. -/
theorem article_exists_ignores_file_names_cex :
    article_exists "12345" "out" [Entry.file "12345.md"] = false ∧
    (allNames [Entry.file "12345.md"]).any (fun n => hasSubstr n "12345") = true := by
  constructor
  · simp only [article_exists, walk, walkChildren, dirNames, fileNames]
    decide
  · simp only [allNames]
    decide

/-- C1 — amended.  `article_exists identifier output_dir es` returns
true iff the identifier occurs as a substring of some directory *path*
produced by recursively walking the output root (the root path itself,
or the root path joined with a chain of subdirectory names); file
names are never consulted. -/
theorem article_exists_iff_dir_path_substring
    (article_id output_dir : String) (es : List Entry) :
    article_exists article_id output_dir es = true ↔
      ∃ p ∈ dirPathsOf output_dir es, hasSubstr p article_id = true := by
  rw [article_exists, List.any_eq_true, ← walk_map_fst]
  constructor
  · rintro ⟨step, hmem, hsub⟩
    exact ⟨step.1, List.mem_map_of_mem _ hmem, hsub⟩
  · rintro ⟨p, hmem, hsub⟩
    rcases List.mem_map.mp hmem with ⟨step, hstep, rfl⟩
    exact ⟨step, hstep, hsub⟩

/-! ## Per-URL worker theorems -/

/-- C2.  When a URL reaches the fetch-unit invocation (its identifier is
present, non-empty and not already materialized) and the fetch unit
fails — with any message whatsoever, unexpected internal errors
included, since `fetch` is universally quantified — the `try/except` in
`process_single_url` converts the failure into the triple
`(url, False, message)`; the worker always returns a triple, so no
per-item error escapes to the pool. -/
theorem process_single_url_fetch_error_caught
    (fetch : String → Except String Unit) (url cookies output_dir : String)
    (es : List Entry) (article_id e : String)
    (hid : get_article_id url = some article_id) (hne : article_id ≠ "")
    (hex : article_exists article_id output_dir es = false)
    (hf : fetch url = Except.error e) :
    process_single_url fetch url cookies output_dir es = (url, false, some e) := by
  simp [process_single_url, hid, hne, hex, hf]

theorem process_single_url_fetch_error_caught_witness :
    process_single_url (fun _ => Except.error "boom")
      "https://zhuanlan.zhihu.com/p/12345" "c" "out" [] =
      ("https://zhuanlan.zhihu.com/p/12345", false, some "boom") :=
  process_single_url_fetch_error_caught _ _ "c" "out" [] "12345" "boom"
    (by decide) (by decide)
    (by simp only [article_exists, walk, walkChildren, dirNames, fileNames]; decide)
    rfl

/-- C3 — counterexample.  The claim's first clause says a raw string
that starts with `//` is returned with `https:` prepended *unchanged
otherwise*; but `normalize` strips first, so a trailing space
disappears: `normalize "//a "` is `"https://a"`, not
`"https:" ++ "//a "`. -/
theorem normalize_untrimmed_cex :
    pyStartsWith "//a " "//" = true ∧ normalize "//a " ≠ "https:" ++ "//a " := by
  constructor
  · decide
  · decide

/-- C3 — amended.  After trimming whitespace: when the trimmed string
starts with `//`, `normalize` yields the trimmed string with `https:`
prepended; otherwise it yields the trimmed string unchanged.  (The
claim's untrimmed phrasing holds only for inputs without surrounding
whitespace.) -/
theorem normalize_spec (raw : String) :
    (pyStartsWith (pyStrip raw) "//" = true →
      normalize raw = "https:" ++ pyStrip raw) ∧
    (pyStartsWith (pyStrip raw) "//" = false → normalize raw = pyStrip raw) := by
  unfold normalize
  constructor <;> intro h <;> simp [h]

theorem normalize_spec_witness :
    normalize "//b" = "https:" ++ pyStrip "//b" ∧ normalize "a b" = pyStrip "a b" :=
  ⟨(normalize_spec "//b").1 (by decide), (normalize_spec "a b").2 (by decide)⟩

/-- C4.  When no identifier can be extracted from the URL,
`process_single_url` returns the failure triple
`(url, False, "Invalid URL format")` for every possible fetch unit —
in particular the result does not depend on `fetch`, so the fetch unit
is never invoked. -/
theorem process_single_url_invalid_format
    (fetch : String → Except String Unit) (url cookies output_dir : String)
    (es : List Entry) (h : get_article_id url = none) :
    process_single_url fetch url cookies output_dir es =
      (url, false, some "Invalid URL format") := by
  simp [process_single_url, h]

theorem process_single_url_invalid_format_witness :
    process_single_url (fun _ => Except.ok ()) "https://example.org/x" "c" "out" [] =
      ("https://example.org/x", false, some "Invalid URL format") :=
  process_single_url_invalid_format _ _ "c" "out" [] (by decide)

/-- C5.  When the extracted identifier is non-empty and
`article_exists` reports it already materialized under the output
directory, `process_single_url` returns
`(url, True, "Article already exists")` for every possible fetch unit
(so the fetch unit is never invoked), and the result loop of
`process_urls` tallies that triple as one more Skipped outcome. -/
theorem process_single_url_skips_existing
    (fetch : String → Except String Unit) (url cookies output_dir : String)
    (es : List Entry) (article_id : String)
    (hid : get_article_id url = some article_id) (hne : article_id ≠ "")
    (hex : article_exists article_id output_dir es = true) :
    process_single_url fetch url cookies output_dir es =
      (url, true, some "Article already exists") ∧
    ∀ s f k fl, tallyStep (s, f, k, fl)
      (process_single_url fetch url cookies output_dir es) = (s, f, k + 1, fl) := by
  have h1 : process_single_url fetch url cookies output_dir es =
      (url, true, some "Article already exists") := by
    simp [process_single_url, hid, hne, hex]
  exact ⟨h1, fun s f k fl => by rw [h1]; simp [tallyStep]⟩

theorem process_single_url_skips_existing_witness :
    process_single_url (fun _ => Except.ok ())
      "https://zhuanlan.zhihu.com/p/12345" "c" "out" [Entry.dir "12345" []] =
      ("https://zhuanlan.zhihu.com/p/12345", true, some "Article already exists") :=
  (process_single_url_skips_existing _ _ "c" "out" [Entry.dir "12345" []] "12345"
    (by decide) (by decide)
    (by simp only [article_exists, walk, walkChildren, dirNames, fileNames]; decide)).1

/-- C10.  A URL that matches a recognized shape marker but has nothing
after the marker (the claim's examples: ending in `zvideo/` or
`zhuanlan.zhihu.com/p/`) yields the empty-string identifier, and
Python's `if not article_id` treats the empty string exactly like
`None`: for every fetch unit the worker returns
`(url, False, "Invalid URL format")` without invoking it. -/
theorem trailing_marker_empty_id :
    get_article_id "https://www.zhihu.com/zvideo/" = some "" ∧
    get_article_id "https://zhuanlan.zhihu.com/p/" = some "" ∧
    ∀ (fetch : String → Except String Unit) (url cookies output_dir : String)
      (es : List Entry), get_article_id url = some "" →
      process_single_url fetch url cookies output_dir es =
        (url, false, some "Invalid URL format") := by
  refine ⟨by decide, by decide, ?_⟩
  intro fetch url cookies output_dir es h
  simp [process_single_url, h]

theorem trailing_marker_empty_id_witness :
    process_single_url (fun _ => Except.ok ()) "https://www.zhihu.com/zvideo/"
      "c" "out" [] = ("https://www.zhihu.com/zvideo/", false, some "Invalid URL format") :=
  trailing_marker_empty_id.2.2 _ _ "c" "out" [] (by decide)

/-! ## Driver fail-fast -/

/-- C9.  `main` terminates with exit status 1 — before any URL is
processed, since the error short-circuits the driver — whenever the
cookies file is absent, its stripped content is empty, or no URL-list
files were found. -/
theorem mainRun_fail_fast
    (fetch : String → Except String Unit) (fs : String → List Entry)
    (cookiesContent : Option String) (url_files : List UrlFile)
    (h : cookiesContent = none ∨
         (∃ s, cookiesContent = some s ∧ pyStrip s = "") ∨ url_files = []) :
    mainRun fetch fs cookiesContent url_files = Except.error 1 := by
  rcases h with rfl | ⟨s, rfl, hs⟩ | rfl
  · rfl
  · simp only [mainRun, read_cookies_from_file, hs]
    rfl
  · cases cookiesContent with
    | none => rfl
    | some s =>
      by_cases hs : pyStrip s = "" <;> simp only [mainRun, read_cookies_from_file, hs] <;> rfl

theorem mainRun_fail_fast_witness :
    mainRun (fun _ => Except.ok ()) (fun _ => []) none [⟨"cat", ["u"]⟩] = Except.error 1 ∧
    mainRun (fun _ => Except.ok ()) (fun _ => []) (some "  ") [⟨"cat", ["u"]⟩] = Except.error 1 ∧
    mainRun (fun _ => Except.ok ()) (fun _ => []) (some "tok") [] = Except.error 1 :=
  ⟨mainRun_fail_fast _ _ none _ (Or.inl rfl),
   mainRun_fail_fast _ _ (some "  ") _ (Or.inr (Or.inl ⟨"  ", rfl, by decide⟩)),
   mainRun_fail_fast _ _ (some "tok") [] (Or.inr (Or.inr rfl))⟩

/-! ## Batch-aggregation lemmas -/

lemma tallyStep_sum (acc : Totals) (r : UrlResult) :
    (tallyStep acc r).1 + (tallyStep acc r).2.1 + (tallyStep acc r).2.2.1 =
      acc.1 + acc.2.1 + acc.2.2.1 + 1 := by
  rcases acc with ⟨s, f, k, fl⟩
  rcases r with ⟨u, b, e⟩
  cases b
  · simp [tallyStep]
    omega
  · simp [tallyStep]
    split <;> simp <;> omega

lemma tallyStep_failed_len (acc : Totals) (r : UrlResult) :
    (tallyStep acc r).2.2.2.length + acc.2.1 =
      acc.2.2.2.length + (tallyStep acc r).2.1 := by
  rcases acc with ⟨s, f, k, fl⟩
  rcases r with ⟨u, b, e⟩
  cases b
  · simp [tallyStep]
    omega
  · simp [tallyStep]
    split <;> simp

lemma tallyStep_failed_mem (acc : Totals) (r : UrlResult)
    (p : String × Option String) (hp : p ∈ (tallyStep acc r).2.2.2) :
    p ∈ acc.2.2.2 ∨ p.1 = r.1 := by
  rcases acc with ⟨s, f, k, fl⟩
  rcases r with ⟨u, b, e⟩
  cases b
  · simp [tallyStep] at hp
    rcases hp with hp | hp
    · exact Or.inl hp
    · right
      subst hp
      rfl
  · simp [tallyStep] at hp
    split at hp <;> exact Or.inl hp

lemma foldl_tally_sum (results : List UrlResult) (acc : Totals) :
    (results.foldl tallyStep acc).1 + (results.foldl tallyStep acc).2.1 +
        (results.foldl tallyStep acc).2.2.1 =
      acc.1 + acc.2.1 + acc.2.2.1 + results.length := by
  induction results generalizing acc with
  | nil => simp
  | cons r rest ih =>
    rw [List.foldl_cons, ih (tallyStep acc r), tallyStep_sum]
    simp [Nat.add_assoc, Nat.add_comm]
    omega

lemma foldl_tally_failed_len (results : List UrlResult) (acc : Totals) :
    (results.foldl tallyStep acc).2.2.2.length + acc.2.1 =
      acc.2.2.2.length + (results.foldl tallyStep acc).2.1 := by
  induction results generalizing acc with
  | nil => simp
  | cons r rest ih =>
    rw [List.foldl_cons]
    have h1 := ih (tallyStep acc r)
    have h2 := tallyStep_failed_len acc r
    omega

lemma foldl_tally_failed_mem (results : List UrlResult) (acc : Totals)
    (p : String × Option String)
    (hp : p ∈ (results.foldl tallyStep acc).2.2.2) :
    p ∈ acc.2.2.2 ∨ p.1 ∈ results.map (·.1) := by
  induction results generalizing acc with
  | nil => exact Or.inl hp
  | cons r rest ih =>
    rw [List.foldl_cons] at hp
    rcases ih (tallyStep acc r) hp with h | h
    · rcases tallyStep_failed_mem acc r p h with h' | h'
      · exact Or.inl h'
      · right; rw [h']; exact List.mem_cons_self _ _
    · right; exact List.mem_cons_of_mem _ h

lemma process_single_url_fst (fetch : String → Except String Unit)
    (url cookies output_dir : String) (es : List Entry) :
    (process_single_url fetch url cookies output_dir es).1 = url := by
  unfold process_single_url
  cases h : get_article_id url with
  | none => rfl
  | some aid =>
    by_cases h1 : aid = ""
    · simp [h1]
    · simp only [h1, ite_false, if_neg, not_false_iff]
      by_cases h2 : article_exists aid output_dir es = true
      · simp [h2]
      · simp only [h2, Bool.false_eq_true, ite_false, if_neg, not_false_iff]
        cases fetch url <;> rfl

/-- C6.  `process_urls` consumes exactly one worker result per input
URL — stated for every delivery order of `imap_unordered`, i.e. for
every permutation `order` of the input list — and its totals account
for each of them exactly once: the success, failure and skipped counts
sum to the length of the input list, the failure list has exactly
failure-count entries, and every entry pairs a URL of the input list
with its reported reason. -/
theorem process_urls_one_outcome_each
    (fetch : String → Except String Unit) (cookies output_dir : String)
    (es : List Entry) (urls order : List String) (hperm : order.Perm urls) :
    let t := process_urls (order.map fun url =>
      process_single_url fetch url cookies output_dir es)
    t.1 + t.2.1 + t.2.2.1 = urls.length ∧
    t.2.2.2.length = t.2.1 ∧
    ∀ p ∈ t.2.2.2, p.1 ∈ urls := by
  intro t
  refine ⟨?_, ?_, ?_⟩
  · have h := foldl_tally_sum (order.map fun url =>
      process_single_url fetch url cookies output_dir es) (0, 0, 0, [])
    simpa [process_urls, hperm.length_eq] using h
  · have h := foldl_tally_failed_len (order.map fun url =>
      process_single_url fetch url cookies output_dir es) (0, 0, 0, [])
    simpa [process_urls] using h
  · intro p hp
    have h := foldl_tally_failed_mem (order.map fun url =>
      process_single_url fetch url cookies output_dir es) (0, 0, 0, []) p hp
    rcases h with h | h
    · simp at h
    · rw [List.map_map] at h
      have : ((fun r : UrlResult => r.1) ∘ fun url =>
          process_single_url fetch url cookies output_dir es) = id := by
        funext u
        exact process_single_url_fst fetch u cookies output_dir es
      rw [this, List.map_id] at h
      exact hperm.mem_iff.mp h

theorem process_urls_one_outcome_each_witness :
    let t := process_urls ((["bad", "https://zhuanlan.zhihu.com/p/12345"]).map fun url =>
      process_single_url (fun _ => Except.ok ()) url "c" "out" [])
    t.1 + t.2.1 + t.2.2.1 = 2 ∧ t.2.2.2.length = t.2.1 := by
  have h := process_urls_one_outcome_each (fun _ => Except.ok ()) "c" "out" []
    ["https://zhuanlan.zhihu.com/p/12345", "bad"]
    ["bad", "https://zhuanlan.zhihu.com/p/12345"]
    (List.Perm.swap "https://zhuanlan.zhihu.com/p/12345" "bad" [])
  exact ⟨h.1, h.2.1⟩

/-! ## Extraction/dedup lemmas -/

lemma extract_foldl (cands : List String) (out seen : List String) :
    cands.foldl extract_step (out, seen) =
      (out ++ dedupFirstAux seen (cands.filterMap candUrl),
       seenAfter seen (cands.filterMap candUrl)) := by
  induction cands generalizing out seen with
  | nil => simp [dedupFirstAux, seenAfter]
  | cons raw rest ih =>
    rw [List.foldl_cons, List.filterMap_cons]
    by_cases h : pyStrip raw = ""
    · have hc : candUrl raw = none := by simp [candUrl, h]
      have hstep : extract_step (out, seen) raw = (out, seen) := by
        simp [extract_step, h]
      rw [hc, hstep, ih]
    · have hc : candUrl raw = some (normalize (pyStrip raw)) := by
        simp [candUrl, h]
      rw [hc]
      by_cases hmem : normalize (pyStrip raw) ∈ seen
      · have hstep : extract_step (out, seen) raw = (out, seen) := by
          simp [extract_step, h, hmem]
        rw [hstep, ih]
        simp [dedupFirstAux, seenAfter, hmem]
      · have hstep : extract_step (out, seen) raw =
            (out ++ [normalize (pyStrip raw)], normalize (pyStrip raw) :: seen) := by
          simp [extract_step, h, hmem]
        rw [hstep, ih]
        simp [dedupFirstAux, seenAfter, hmem]

lemma dedupFirstAux_append (a b seen : List String) :
    dedupFirstAux seen (a ++ b) =
      dedupFirstAux seen a ++ dedupFirstAux (seenAfter seen a) b := by
  induction a generalizing seen with
  | nil => simp [dedupFirstAux, seenAfter]
  | cons x xs ih =>
    by_cases h : x ∈ seen <;> simp [dedupFirstAux, seenAfter, h, ih]

lemma seenAfter_append (a b seen : List String) :
    seenAfter seen (a ++ b) = seenAfter (seenAfter seen a) b := by
  induction a generalizing seen with
  | nil => simp [seenAfter]
  | cons x xs ih =>
    by_cases h : x ∈ seen <;> simp [seenAfter, h, ih]

lemma processCategory_foldl (docs : List (List String)) (merged seen : List String) :
    docs.foldl catStep (merged, seen) =
      (merged ++ dedupFirstAux seen (docs.flatten.filterMap candUrl),
       seenAfter seen (docs.flatten.filterMap candUrl)) := by
  induction docs generalizing merged seen with
  | nil => simp [dedupFirstAux, seenAfter]
  | cons doc rest ih =>
    rw [List.foldl_cons]
    have hstep : catStep (merged, seen) doc =
        (merged ++ dedupFirstAux seen (doc.filterMap candUrl),
         seenAfter seen (doc.filterMap candUrl)) := by
      simp [catStep, extract_urls_from_soup, extract_foldl]
    rw [hstep, ih]
    simp [List.flatten_cons, List.filterMap_append, dedupFirstAux_append,
      seenAfter_append, List.append_assoc]

lemma dedupFirstAux_nodup (l : List String) : ∀ seen : List String,
    (dedupFirstAux seen l).Nodup ∧ ∀ x ∈ dedupFirstAux seen l, x ∉ seen := by
  induction l with
  | nil => intro seen; simp [dedupFirstAux]
  | cons x xs ih =>
    intro seen
    by_cases h : x ∈ seen
    · rw [dedupFirstAux, if_pos h]
      exact ih seen
    · rw [dedupFirstAux, if_neg h]
      obtain ⟨hnd, hmem⟩ := ih (x :: seen)
      refine ⟨List.nodup_cons.mpr ⟨?_, hnd⟩, ?_⟩
      · intro hx
        exact hmem x hx (List.mem_cons_self x seen)
      · intro y hy
        rcases List.mem_cons.mp hy with rfl | hy'
        · exact h
        · intro hys
          exact hmem y hy' (List.mem_cons_of_mem _ hys)

/-- C7.  The per-category output list (the shared seen set threaded
through all documents in their sorted processing order) contains no
duplicates, and equals the first-occurrence deduplication of the
normalized candidate stream of all documents concatenated in that
order — i.e. each URL appears exactly at the position of its first
occurrence across the documents. -/
theorem processCategory_nodup_firstOccurrence (docs : List (List String)) :
    (processCategory docs).Nodup ∧
    processCategory docs = dedupFirst (docs.flatten.filterMap candUrl) := by
  have h2 : processCategory docs = dedupFirst (docs.flatten.filterMap candUrl) := by
    unfold processCategory dedupFirst
    rw [processCategory_foldl]
    simp
  refine ⟨?_, h2⟩
  rw [h2]
  exact (dedupFirstAux_nodup _ []).1

/-! ## Identifier extraction -/

/-- C8.  The article URL `https://zhuanlan.zhihu.com/p/12345` yields
identifier `12345`; a URL containing `question/…/answer/67890` yields
`67890`; and a URL matching none of the four recognized shape guards
(article, question-answer, short-video, column) yields no
identifier. -/
theorem get_article_id_spec :
    get_article_id "https://zhuanlan.zhihu.com/p/12345" = some "12345" ∧
    get_article_id "https://www.zhihu.com/question/11111/answer/67890" = some "67890" ∧
    ∀ url : String, hasSubstr url "zhuanlan.zhihu.com/p/" = false →
      (hasSubstr url "question" && hasSubstr url "answer") = false →
      hasSubstr url "zvideo" = false →
      hasSubstr url "column" = false →
      get_article_id url = none := by
  refine ⟨by decide, by decide, ?_⟩
  intro url h1 h2 h3 h4
  simp [get_article_id, h1, h2, h3, h4]

theorem get_article_id_spec_witness :
    get_article_id "https://example.org/x" = none :=
  get_article_id_spec.2.2 "https://example.org/x"
    (by decide) (by decide) (by decide) (by decide)

end Zhihu
